import Mathlib

/-!
# BackgroundMaskingCalculator

A shallow embedding of `BackgroundMaskingCalculator::Process`
(`mediapipe/calculators/image/background_masking_calculator.cc`) and the
properties of the compositing it performs.

The embedding covers the 8-bit image formats: every `cv::Mat` below has depth
`CV_8U`, its elements are natural numbers below 256, and the saturating
arithmetic of OpenCV is written out with `min`.  The library routines whose
code is outside the calculator (`PathToResourceAsFile`, `cv::imread`, the
resampling of `cv::resize` and the filter of `cv::GaussianBlur`) are fields of
`Externals`.
-/

namespace mediapipe

/-! ## OpenCV matrices -/

/-- Conversion `cv::saturate_cast<uchar>` of a non-negative integer. -/
def saturate_cast (v : Nat) : Nat := min v 255

/-- The error codes with which the OpenCV calls of `Process` can raise a
`cv::Exception`. -/
inductive cvError where
  | StsAssert
  | StsUnmatchedSizes
deriving DecidableEq, Repr

/-- A dense `cv::Mat` of depth `CV_8U`: `data` lists the pixels row by row, each
pixel being the list of its channel values. -/
structure Mat where
  rows : Nat
  cols : Nat
  channels : Nat
  data : List (List Nat)
deriving DecidableEq, Repr

/-- Test `cv::Mat::empty()`. -/
def Mat.empty (m : Mat) : Bool := m.rows == 0 || m.cols == 0

/-- Element access `m.at<cv::Vec<uchar, cn>>(r, c)[ch]`. -/
def Mat.elem (m : Mat) (r c ch : Nat) : Nat :=
  (m.data.getD (r * m.cols + c) []).getD ch 0

/-- Assignment `m = m * 255.0` on a `CV_8U` matrix: `convertTo` with scale 255
and the same depth, so every element becomes `saturate_cast<uchar>(v * 255)`. -/
def Mat.mul255 (m : Mat) : Mat :=
  { m with data := m.data.map (fun p => p.map (fun v => saturate_cast (v * 255))) }

/-- Rounded 8-bit quotient `saturate_cast<uchar>(v / 255.0)`: the nearest
integer to `v / 255` (an integer `v` never lies halfway, 255 being odd). -/
def div255 (v : Nat) : Nat := saturate_cast ((2 * v + 255) / 510)

/-- Assignment `m = m / 255.0` on a `CV_8U` matrix: `convertTo` with scale
`1 / 255` and the same depth. -/
def Mat.div255 (m : Mat) : Mat :=
  { m with data := m.data.map (fun p => p.map mediapipe.div255) }

/-- Call `cv::merge(inm, 3, dst)` with `inm = {m, m, m}`: the channels of the
three sources are laid one after the other in every pixel. -/
def cv_merge3 (m : Mat) : Mat :=
  { m with channels := 3 * m.channels, data := m.data.map (fun p => p ++ p ++ p) }

/-- Call `cv::bitwise_not(src, dst)` on a `CV_8U` matrix: every bit of every
byte is inverted. -/
def cv_bitwise_not (src : Mat) : Mat :=
  { src with data := src.data.map (fun p => p.map (fun v => (v ^^^ 255) % 256)) }

/-- Call `dst.convertTo(dst, CV_8U)` on a matrix that already has depth
`CV_8U`: no scaling, no change of depth. -/
def Mat.convertTo_CV_8U (m : Mat) : Mat := m

/-- Element-wise `cv::multiply(src1, src2, dst)` (scale 1) of two `CV_8U`
matrices of the same size and channel count; any other pair of operands is
reported with `StsUnmatchedSizes` (the array-op-scalar form of the call is not
embedded). -/
def cv_multiply (src1 src2 : Mat) : Except cvError Mat :=
  if src1.rows = src2.rows ∧ src1.cols = src2.cols ∧ src1.channels = src2.channels then
    .ok { src1 with
      data := List.zipWith (List.zipWith (fun a b => saturate_cast (a * b))) src1.data src2.data }
  else .error cvError.StsUnmatchedSizes

/-- Element-wise `cv::add(src1, src2, dst)` of two `CV_8U` matrices of the same
size and channel count; any other pair of operands is reported with
`StsUnmatchedSizes` (the array-op-scalar form of the call is not embedded). -/
def cv_add (src1 src2 : Mat) : Except cvError Mat :=
  if src1.rows = src2.rows ∧ src1.cols = src2.cols ∧ src1.channels = src2.channels then
    .ok { src1 with
      data := List.zipWith (List.zipWith (fun a b => saturate_cast (a + b))) src1.data src2.data }
  else .error cvError.StsUnmatchedSizes

/-- Call `cv::resize(src, dst, cv::Size(width, height))`: an empty source or an
empty target size fails an assertion, otherwise the result has the requested
size and the type of the source; its contents come from the resampling routine
`resample`. -/
def cv_resize (resample : Mat → Nat → Nat → List (List Nat)) (src : Mat)
    (width height : Nat) : Except cvError Mat :=
  if src.empty then .error cvError.StsAssert
  else if width = 0 ∨ height = 0 then .error cvError.StsAssert
  else .ok { rows := height, cols := width, channels := src.channels,
             data := resample src width height }

/-- Call `cv::GaussianBlur(src, src, cv::Size(k, k), 7)`: the result has the
size and type of the source; its contents come from the filter `filter`. -/
def cv_GaussianBlur (filter : Mat → List (List Nat)) (src : Mat) : Mat :=
  { src with data := filter src }

/-! ## Framework types -/

/-- Modelled from the spec: the declaration of `ImageFormat` is not among the
sources; a pixel format fixes a channel count and a bit depth, and these are
the formats of depth 8. -/
inductive ImageFormat where
  | SRGB
  | SRGBA
  | GRAY8
  | LAB8
  | SBGRA
deriving DecidableEq, Repr

/-- Modelled from the spec: the channel count of a pixel format. -/
def ImageFormat.NumberOfChannels : ImageFormat → Nat
  | .SRGB => 3
  | .SRGBA => 4
  | .GRAY8 => 1
  | .LAB8 => 3
  | .SBGRA => 4

/-- Modelled from the spec: the declaration of `ImageFrame` is not among the
sources; a frame is a pixel buffer with a width, a height and a pixel
format. -/
structure ImageFrame where
  Format : ImageFormat
  Width : Nat
  Height : Nat
  PixelData : List (List Nat)
deriving DecidableEq, Repr

/-- Modelled from the spec: `formats::MatView` is not among the sources; the
view of a frame is a matrix over the same pixels, with the height, the width
and the channel count of the frame. -/
def MatView (frame : ImageFrame) : Mat :=
  { rows := frame.Height, cols := frame.Width,
    channels := frame.Format.NumberOfChannels, data := frame.PixelData }

/-- Modelled from the spec: the declaration of `::mediapipe::Status` is not
among the sources; a status is either `OkStatus` or a failure result. -/
inductive Status where
  | OkStatus
  | failure (message : String)
deriving DecidableEq, Repr

/-- Modelled from the spec: the declaration of `Packet` is not among the
sources; a packet of an image stream is a frame and its timestamp. -/
structure Packet where
  frame : ImageFrame
  timestamp : Int
deriving DecidableEq, Repr

/-- Modelled from the spec: the declaration of `CalculatorContext` is not among
the sources; this is the part of it that `Process` touches: the frames at the
input tags `IMAGE` and `MASK`, the input timestamp, and the packets added so
far to the output tag `IMAGE`. -/
structure CalculatorContext where
  Inputs_IMAGE : ImageFrame
  Inputs_MASK : ImageFrame
  InputTimestamp : Int
  Outputs_IMAGE : List Packet
deriving DecidableEq, Repr

/-- The library routines called by `Process` whose code is outside the
calculator. `resize` is the resampling of `cv::resize` (source, target width,
target height) and `GaussianBlur` the filter applied by the two
`cv::GaussianBlur` calls of lines 120 and 121 (kernel size `k` = 9 and sigma 7
in the source; with a kernel of size 1 the filter is the identity). -/
structure Externals where
  PathToResourceAsFile : String → Except Status String
  imread : String → Mat
  resize : Mat → Nat → Nat → List (List Nat)
  GaussianBlur : Mat → List (List Nat)

/-! ## The calculator -/

/-- Lines 93 to 108 of `Process`: the mask is scaled by 255, merged three times
into `bg_mask`, and `fg_mask` is its bitwise inversion. Returns
`(bg_mask, fg_mask)`; `bg_mask` is the buffer later multiplied with the input
frame, `fg_mask` the one multiplied with the background. -/
def fullRangeMasks (mask_mat : Mat) : Mat × Mat :=
  let mask_mat := mask_mat.mul255
  let bg_mask := cv_merge3 mask_mat
  let fg_mask := cv_bitwise_not bg_mask
  (bg_mask, fg_mask)

/-- Lines 112 to 116 of `Process`: both masks are divided by 255. -/
def normalizedMasks (mask_mat : Mat) : Mat × Mat :=
  let (bg_mask, fg_mask) := fullRangeMasks mask_mat
  let bg_mask := bg_mask.div255
  let fg_mask := fg_mask.div255
  (bg_mask, fg_mask)

/-- Lines 119 to 127 of `Process`: both masks are blurred, then converted to
`CV_8U`. Returns the final `(bg_mask, fg_mask)`. -/
def blendWeights (filter : Mat → List (List Nat)) (mask_mat : Mat) : Mat × Mat :=
  let (bg_mask, fg_mask) := normalizedMasks mask_mat
  let bg_mask := cv_GaussianBlur filter bg_mask
  let fg_mask := cv_GaussianBlur filter fg_mask
  let bg_mask := bg_mask.convertTo_CV_8U
  let fg_mask := fg_mask.convertTo_CV_8U
  (bg_mask, fg_mask)

/-- The three images computed at lines 133 to 143 of `Process`. -/
structure Composite where
  bg_image : Mat
  fg_image : Mat
  output_image : Mat
deriving DecidableEq, Repr

/-- Lines 133 to 143 of `Process`: `bg_image = background * fg_mask`,
`fg_image = input_mat * bg_mask`, `output_image = fg_image + bg_image`. -/
def composite (background input_mat bg_mask fg_mask : Mat) : Except cvError Composite := do
  let bg_image ← cv_multiply background fg_mask
  let fg_image ← cv_multiply input_mat bg_mask
  let output_image ← cv_add fg_image bg_image
  pure { bg_image := bg_image, fg_image := fg_image, output_image := output_image }

/-- Call `src.copyTo(output_mat)` where `output_mat` views the frame `dst`: the
pixels of `src` are written into the frame when `src` has its size and type
(otherwise `output_mat` is reallocated and the frame is left as it was). -/
def copyTo (src : Mat) (dst : ImageFrame) : ImageFrame :=
  if src.rows = dst.Height ∧ src.cols = dst.Width
      ∧ src.channels = dst.Format.NumberOfChannels then
    { dst with PixelData := src.data }
  else dst

/-- Path `file::JoinPath("./", "/mediapipe/calculators/image/testdata/dino.jpg")`
handed to `cv::imread`. -/
def background_path : String := "./mediapipe/calculators/image/testdata/dino.jpg"

/-- Method `BackgroundMaskingCalculator::Process`. An error of the result is a
`cv::Exception` that leaves `Process`; otherwise the result is the returned
status and the packets of the `IMAGE` output after the call. The new frame of
line 145 is allocated without contents, written here as the empty pixel list.
The assignment of line 93 goes through the view of the mask frame; what it
leaves in the buffer of that frame is not tracked. -/
def Process (ext : Externals) (cc : CalculatorContext) :
    Except cvError (Status × List Packet) := do
  let _status := ext.PathToResourceAsFile "dino.jpg"
  let background := ext.imread background_path
  let input_img := cc.Inputs_IMAGE
  let input_mat := MatView input_img
  let mask_img := cc.Inputs_MASK
  let mask_mat := MatView mask_img
  let background ← cv_resize ext.resize background input_mat.cols input_mat.rows
  let (bg_mask, fg_mask) := blendWeights ext.GaussianBlur mask_mat
  let images ← composite background input_mat bg_mask fg_mask
  let output_frame : ImageFrame :=
    { Format := input_img.Format, Width := input_img.Width, Height := input_img.Height,
      PixelData := [] }
  let output_frame := copyTo images.fg_image output_frame
  pure (Status.OkStatus, cc.Outputs_IMAGE ++ [⟨output_frame, cc.InputTimestamp⟩])

/-! ## Well-formed inputs -/

/-- A frame whose buffer agrees with its header: one pixel per position, one
value below 256 per channel. -/
def ImageFrame.WellFormed (frame : ImageFrame) : Prop :=
  frame.PixelData.length = frame.Height * frame.Width ∧
    ∀ p ∈ frame.PixelData, p.length = frame.Format.NumberOfChannels ∧ ∀ v ∈ p, v < 256

/-- A single-channel matrix whose buffer holds one value per position. -/
def Mat.SingleChannel (m : Mat) : Prop :=
  m.channels = 1 ∧ m.data.length = m.rows * m.cols ∧ ∀ p ∈ m.data, p.length = 1

/-- The inputs the calculator is written for: a three-channel frame of positive
size, a single-channel mask of the same width and height, and a background
that `cv::imread` loaded as a three-channel image. -/
structure ValidInput (ext : Externals) (cc : CalculatorContext) : Prop where
  frame_channels : cc.Inputs_IMAGE.Format.NumberOfChannels = 3
  mask_channels : cc.Inputs_MASK.Format.NumberOfChannels = 1
  width_pos : 0 < cc.Inputs_IMAGE.Width
  height_pos : 0 < cc.Inputs_IMAGE.Height
  mask_width : cc.Inputs_MASK.Width = cc.Inputs_IMAGE.Width
  mask_height : cc.Inputs_MASK.Height = cc.Inputs_IMAGE.Height
  background_loaded : (ext.imread background_path).empty = false
  background_channels : (ext.imread background_path).channels = 3

/-! ## Sample collaborators and inputs -/

/-- Nearest-neighbour resampling, a sample instance of the resampling routine
of `cv::resize`. -/
def nearestNeighbour (src : Mat) (width height : Nat) : List (List Nat) :=
  ((List.range height).map fun r =>
    (List.range width).map fun c =>
      src.data.getD ((r * src.rows / height) * src.cols + c * src.cols / width) []).flatten

/-- The filter of a Gaussian blur with a 1 x 1 kernel: the identity. -/
def noBlur (src : Mat) : List (List Nat) := src.data

/-- A blur of `CV_8U` data as a weighted average rounded to nearest: the taps of
an output pixel are pairs of an integer weight and the index of a source pixel,
they depend on the size of the matrix and on the position only (kernel and
border scheme) and are the same for every channel; an output element is the
weighted sum of the source elements divided by `norm`, rounded half up and
saturated. A tap outside the buffer reads 0. -/
def roundingFilter (norm : Nat) (taps : Nat → Nat → Nat → List (Nat × Nat))
    (src : Mat) : List (List Nat) :=
  (List.range (src.rows * src.cols)).map fun i =>
    (List.range src.channels).map fun ch =>
      saturate_cast
        ((2 * ((taps src.rows src.cols i).map
            (fun t => t.1 * (src.data.getD t.2 []).getD ch 0)).sum + norm) / (2 * norm))

/-- The weights of every output pixel add up to the normaliser `norm`, or miss
it by less than half of it (a kernel with quantised weights); a normalised
kernel has the sum equal to `norm`. -/
def TapsWithinNorm (norm : Nat) (taps : Nat → Nat → Nat → List (Nat × Nat)) : Prop :=
  0 < norm ∧ ∀ rows cols i, 2 * ((taps rows cols i).map Prod.fst).sum < 3 * norm

/-- The taps of the horizontal binomial kernel (1, 2, 1), normaliser 4, on a
matrix of one row, the border pixel being replicated. -/
def binomialTaps (rows cols i : Nat) : List (Nat × Nat) :=
  [(1, i - 1), (2, i), (1, min (i + 1) (rows * cols - 1))]

/-- A mask of one row with the values 1, 1, 0. -/
def rowMask : Mat :=
  { rows := 1, cols := 3, channels := 1, data := [[1], [1], [0]] }

/-- Sample collaborators: the resource lookup answers `resource`, `cv::imread`
returns `background` for every path, resampling is nearest-neighbour and the
blur is `filter`. -/
def sampleExternals (resource : Except Status String) (background : Mat)
    (filter : Mat → List (List Nat)) : Externals :=
  { PathToResourceAsFile := fun _ => resource,
    imread := fun _ => background,
    resize := nearestNeighbour,
    GaussianBlur := filter }

/-- A 2 x 2 frame of solid red. -/
def redFrame : ImageFrame :=
  { Format := ImageFormat.SRGB, Width := 2, Height := 2,
    PixelData := [[255, 0, 0], [255, 0, 0], [255, 0, 0], [255, 0, 0]] }

/-- The 2 x 2 mask with rows (1, 1) and (0, 0). -/
def topMask : ImageFrame :=
  { Format := ImageFormat.GRAY8, Width := 2, Height := 2,
    PixelData := [[1], [1], [0], [0]] }

/-- A 2 x 2 frame of arbitrary colours. -/
def colourFrame : ImageFrame :=
  { Format := ImageFormat.SRGB, Width := 2, Height := 2,
    PixelData := [[10, 20, 30], [40, 50, 60], [70, 80, 90], [200, 0, 255]] }

/-- The 2 x 2 mask that is 1 everywhere. -/
def onesMask : ImageFrame :=
  { Format := ImageFormat.GRAY8, Width := 2, Height := 2,
    PixelData := [[1], [1], [1], [1]] }

/-- The 2 x 2 mask that is 0 everywhere. -/
def zerosMask : ImageFrame :=
  { Format := ImageFormat.GRAY8, Width := 2, Height := 2,
    PixelData := [[0], [0], [0], [0]] }

/-- A 2 x 2 mask of full-range intensities. -/
def greyMask : ImageFrame :=
  { Format := ImageFormat.GRAY8, Width := 2, Height := 2,
    PixelData := [[0], [1], [100], [255]] }

/-- A loaded background of one pixel with the channel values (0, 0, 255). -/
def blueBackground : Mat :=
  { rows := 1, cols := 1, channels := 3, data := [[0, 0, 255]] }

/-- A successful resource lookup. -/
def resourceFound : Except Status String := .ok "/assets/dino.jpg"

theorem blendWeights_fst (filter : Mat → List (List Nat)) (m : Mat) :
    (blendWeights filter m).1 =
      { rows := m.rows, cols := m.cols, channels := 3 * m.channels,
        data := filter (normalizedMasks m).1 } := rfl

theorem blendWeights_snd (filter : Mat → List (List Nat)) (m : Mat) :
    (blendWeights filter m).2 =
      { rows := m.rows, cols := m.cols, channels := 3 * m.channels,
        data := filter (normalizedMasks m).2 } := rfl

/-- The pixels of the frame that `Process` emits on valid inputs: the input
frame multiplied element-wise with the final `bg_mask`. -/
theorem Process_eq (ext : Externals) (cc : CalculatorContext) (h : ValidInput ext cc) :
    Process ext cc = .ok (Status.OkStatus,
      cc.Outputs_IMAGE ++
        [⟨{ Format := cc.Inputs_IMAGE.Format, Width := cc.Inputs_IMAGE.Width,
            Height := cc.Inputs_IMAGE.Height,
            PixelData := List.zipWith (List.zipWith (fun a b => saturate_cast (a * b)))
              cc.Inputs_IMAGE.PixelData
              (blendWeights ext.GaussianBlur (MatView cc.Inputs_MASK)).1.data },
          cc.InputTimestamp⟩]) := by
  obtain ⟨h3, h1, hw, hh, hmw, hmh, hl, hc⟩ := h
  have hw0 : cc.Inputs_IMAGE.Width ≠ 0 := Nat.pos_iff_ne_zero.mp hw
  have hh0 : cc.Inputs_IMAGE.Height ≠ 0 := Nat.pos_iff_ne_zero.mp hh
  simp [Process, cv_resize, hl, MatView, hw0, hh0, composite, cv_multiply, cv_add,
    blendWeights_fst, blendWeights_snd, hmw, hmh, h1, h3, hc, copyTo, bind, Except.bind, pure,
    Except.pure]


/-- Whatever `Process` returns, it returns `OkStatus` after appending one
packet that carries the header of the input frame and the input timestamp. -/
theorem Process_ok_inv (ext : Externals) (cc : CalculatorContext)
    (r : Status × List Packet) (h : Process ext cc = .ok r) :
    ∃ px, r = (Status.OkStatus,
      cc.Outputs_IMAGE ++
        [⟨{ Format := cc.Inputs_IMAGE.Format, Width := cc.Inputs_IMAGE.Width,
            Height := cc.Inputs_IMAGE.Height, PixelData := px },
          cc.InputTimestamp⟩]) := by
  unfold Process at h
  simp only [bind, Except.bind, pure, Except.pure] at h
  split at h
  · exact absurd h (by simp)
  · split at h
    · exact absurd h (by simp)
    · rename_i images _
      injection h with h
      subst h
      unfold copyTo
      split
      · exact ⟨_, rfl⟩
      · exact ⟨_, rfl⟩

/-- Claim C7: on every valid input (a three-channel frame, a single-channel
mask of the same size, a loaded background) `Process` returns and the frame it
emits has exactly the pixel format, the width and the height of the input
frame. -/
theorem Process_output_header (ext : Externals) (cc : CalculatorContext)
    (h : ValidInput ext cc) :
    ∃ frame, Process ext cc
        = .ok (Status.OkStatus, cc.Outputs_IMAGE ++ [⟨frame, cc.InputTimestamp⟩]) ∧
      frame.Format = cc.Inputs_IMAGE.Format ∧ frame.Width = cc.Inputs_IMAGE.Width ∧
      frame.Height = cc.Inputs_IMAGE.Height :=
  ⟨_, Process_eq ext cc h, rfl, rfl, rfl⟩

/-- The boundary scenario is a valid input. -/
theorem sample_valid :
    ValidInput (sampleExternals resourceFound blueBackground noBlur)
      ⟨redFrame, topMask, 42, []⟩ :=
  ⟨rfl, rfl, by decide, by decide, rfl, rfl, rfl, rfl⟩

theorem Process_output_header_witness :
    ∃ frame, Process (sampleExternals resourceFound blueBackground noBlur)
        ⟨redFrame, topMask, 42, []⟩ = .ok (Status.OkStatus, [⟨frame, 42⟩]) ∧
      frame.Format = ImageFormat.SRGB ∧ frame.Width = 2 ∧ frame.Height = 2 :=
  Process_output_header (sampleExternals resourceFound blueBackground noBlur)
    ⟨redFrame, topMask, 42, []⟩ sample_valid

/-- Claim C8: on every valid input `Process` emits an output, and every
invocation that returns has added exactly one packet to the `IMAGE` output,
carrying the timestamp of the current input. -/
theorem Process_timestamp (ext : Externals) (cc : CalculatorContext) :
    (ValidInput ext cc → ∃ r, Process ext cc = .ok r) ∧
    ∀ r, Process ext cc = .ok r →
      ∃ frame, r.2 = cc.Outputs_IMAGE ++ [⟨frame, cc.InputTimestamp⟩] := by
  refine ⟨fun h => ⟨_, Process_eq ext cc h⟩, fun r h => ?_⟩
  obtain ⟨px, rfl⟩ := Process_ok_inv ext cc r h
  exact ⟨_, rfl⟩

theorem Process_timestamp_witness :
    ∃ r frame, Process (sampleExternals resourceFound blueBackground noBlur)
        ⟨redFrame, topMask, 42, [⟨colourFrame, 41⟩]⟩ = .ok r ∧
      r.2 = [⟨colourFrame, 41⟩, ⟨frame, 42⟩] := by
  have h := Process_timestamp (sampleExternals resourceFound blueBackground noBlur)
    ⟨redFrame, topMask, 42, [⟨colourFrame, 41⟩]⟩
  obtain ⟨r, hr⟩ := h.1 ⟨rfl, rfl, by decide, by decide, rfl, rfl, rfl, rfl⟩
  obtain ⟨frame, hf⟩ := h.2 r hr
  exact ⟨r, frame, hr, hf⟩

/-! ## Arithmetic of the 8-bit operations -/

/-- Bitwise inversion of a byte is the subtraction from 255. -/
theorem xor_255 (v : Nat) (h : v < 256) : (v ^^^ 255) % 256 = 255 - v := by
  interval_cases v <;> rfl

theorem saturate_mul_one (v : Nat) (h : v < 256) : saturate_cast (v * 1) = v := by
  unfold saturate_cast; omega

theorem saturate_mul255 (v : Nat) : saturate_cast (v * 255) = if v = 0 then 0 else 255 := by
  unfold saturate_cast; split <;> omega

/-! ## Element access -/

theorem getD_map_pixel (f : List Nat → List Nat) (hf : f [] = []) (l : List (List Nat))
    (i : Nat) : (l.map f).getD i [] = f (l.getD i []) := by
  induction l generalizing i with
  | nil => simp [hf]
  | cons x xs ih =>
    cases i with
    | zero => simp
    | succ n => simpa using ih n

theorem SingleChannel.pixel (m : Mat) (hm : m.SingleChannel) (r c : Nat)
    (hr : r < m.rows) (hc : c < m.cols) :
    m.data.getD (r * m.cols + c) [] = [m.elem r c 0] := by
  obtain ⟨_, hlen, hpx⟩ := hm
  have hi : r * m.cols + c < m.data.length := by
    rw [hlen]
    calc r * m.cols + c < r * m.cols + m.cols := by omega
      _ = (r + 1) * m.cols := by ring
      _ ≤ m.rows * m.cols := Nat.mul_le_mul_right _ hr
  have hmem : m.data.getD (r * m.cols + c) [] ∈ m.data := by
    rw [List.getD_eq_getElem _ _ hi]
    exact List.getElem_mem _
  have h1 := hpx _ hmem
  unfold Mat.elem
  match hp : m.data.getD (r * m.cols + c) [], h1 with
  | [x], _ => simp
  | [], h => simp at h
  | _ :: _ :: _, h => simp at h

/-- The three channels of `bg_mask` at a pixel of the full-range masks. -/
theorem fullRange_pixel (m : Mat) (hm : m.SingleChannel) (r c : Nat)
    (hr : r < m.rows) (hc : c < m.cols) :
    (fullRangeMasks m).1.data.getD (r * m.cols + c) [] =
      [saturate_cast (m.elem r c 0 * 255), saturate_cast (m.elem r c 0 * 255),
        saturate_cast (m.elem r c 0 * 255)] := by
  simp only [fullRangeMasks, cv_merge3, Mat.mul255]
  rw [getD_map_pixel _ rfl, getD_map_pixel _ rfl, SingleChannel.pixel m hm r c hr hc]
  rfl


/-- The three channels of `fg_mask` at a pixel of the full-range masks. -/
theorem fullRange_pixel_snd (m : Mat) (hm : m.SingleChannel) (r c : Nat)
    (hr : r < m.rows) (hc : c < m.cols) :
    (fullRangeMasks m).2.data.getD (r * m.cols + c) [] =
      [(saturate_cast (m.elem r c 0 * 255) ^^^ 255) % 256,
        (saturate_cast (m.elem r c 0 * 255) ^^^ 255) % 256,
        (saturate_cast (m.elem r c 0 * 255) ^^^ 255) % 256] := by
  have h := fullRange_pixel m hm r c hr hc
  simp only [fullRangeMasks, cv_bitwise_not] at h ⊢
  rw [getD_map_pixel _ rfl, h]
  rfl

theorem getD_triple (x : Nat) (ch : Nat) (h : ch < 3) : [x, x, x].getD ch 0 = x := by
  interval_cases ch <;> rfl

theorem fullRange_elem (m : Mat) (hm : m.SingleChannel) (r c ch : Nat)
    (hr : r < m.rows) (hc : c < m.cols) (hch : ch < 3) :
    (fullRangeMasks m).1.elem r c ch = saturate_cast (m.elem r c 0 * 255) := by
  have h := fullRange_pixel m hm r c hr hc
  show ((fullRangeMasks m).1.data.getD (r * m.cols + c) []).getD ch 0 = _
  rw [h, getD_triple _ _ hch]

theorem fullRange_elem_snd (m : Mat) (hm : m.SingleChannel) (r c ch : Nat)
    (hr : r < m.rows) (hc : c < m.cols) (hch : ch < 3) :
    (fullRangeMasks m).2.elem r c ch = (saturate_cast (m.elem r c 0 * 255) ^^^ 255) % 256 := by
  have h := fullRange_pixel_snd m hm r c hr hc
  show ((fullRangeMasks m).2.data.getD (r * m.cols + c) []).getD ch 0 = _
  rw [h, getD_triple _ _ hch]

theorem normalized_elem (m : Mat) (hm : m.SingleChannel) (r c ch : Nat)
    (hr : r < m.rows) (hc : c < m.cols) (hch : ch < 3) :
    (normalizedMasks m).1.elem r c ch = div255 (saturate_cast (m.elem r c 0 * 255)) := by
  have h := fullRange_pixel m hm r c hr hc
  show (((fullRangeMasks m).1.data.map (fun p => p.map div255)).getD (r * m.cols + c) []).getD
    ch 0 = _
  rw [getD_map_pixel _ rfl, h]
  exact getD_triple _ _ hch

theorem normalized_elem_snd (m : Mat) (hm : m.SingleChannel) (r c ch : Nat)
    (hr : r < m.rows) (hc : c < m.cols) (hch : ch < 3) :
    (normalizedMasks m).2.elem r c ch =
      div255 ((saturate_cast (m.elem r c 0 * 255) ^^^ 255) % 256) := by
  have h := fullRange_pixel_snd m hm r c hr hc
  show (((fullRangeMasks m).2.data.map (fun p => p.map div255)).getD (r * m.cols + c) []).getD
    ch 0 = _
  rw [getD_map_pixel _ rfl, h]
  exact getD_triple _ _ hch

theorem sample_singleChannel : (MatView greyMask).SingleChannel := by
  refine ⟨rfl, rfl, ?_⟩
  decide

/-- Claim C5 (complement invariant): for every 8-bit single-channel mask, at
every pixel and in every colour channel, the full-range subject mask (the scaled
mask merged over three channels, `bg_mask` in the code) and the mask obtained
from it by bitwise inversion (`fg_mask`) sum to exactly 255, before any
blurring. -/
theorem complement_invariant (m : Mat) (hm : m.SingleChannel) (r c ch : Nat)
    (hr : r < m.rows) (hc : c < m.cols) (hch : ch < 3) :
    (fullRangeMasks m).1.elem r c ch + (fullRangeMasks m).2.elem r c ch = 255 := by
  rw [fullRange_elem m hm r c ch hr hc hch, fullRange_elem_snd m hm r c ch hr hc hch,
    saturate_mul255]
  split <;> rfl

theorem complement_invariant_witness :
    (MatView greyMask).SingleChannel ∧
      (fullRangeMasks (MatView greyMask)).1.elem 1 0 2
        + (fullRangeMasks (MatView greyMask)).2.elem 1 0 2 = 255 :=
  ⟨sample_singleChannel,
    complement_invariant (MatView greyMask) sample_singleChannel 1 0 2
      (by decide) (by decide) (by decide)⟩

/-- Claim C10: for every 8-bit single-channel mask, the weights handed to the
Gaussian blur are binary. At every pixel and in every channel the subject weight
is 0 when the raw mask value is zero and 1 otherwise, the background weight is
1 minus the subject weight, and two masks that are zero at the same positions
give the same weights. -/
theorem weights_binary (m : Mat) (hm : m.SingleChannel) (r c ch : Nat)
    (hr : r < m.rows) (hc : c < m.cols) (hch : ch < 3) :
    (normalizedMasks m).1.elem r c ch = (if m.elem r c 0 = 0 then 0 else 1) ∧
    (normalizedMasks m).2.elem r c ch = 1 - (normalizedMasks m).1.elem r c ch ∧
    ∀ m2 : Mat, m2.rows = m.rows → m2.cols = m.cols → m2.channels = m.channels →
      m2.data.map (List.map (fun v => decide (v = 0)))
        = m.data.map (List.map (fun v => decide (v = 0))) →
      normalizedMasks m2 = normalizedMasks m := by
  refine ⟨?_, ?_, ?_⟩
  · rw [normalized_elem m hm r c ch hr hc hch, saturate_mul255]
    split <;> rfl
  · rw [normalized_elem m hm r c ch hr hc hch, normalized_elem_snd m hm r c ch hr hc hch,
      saturate_mul255]
    split <;> rfl
  · intro m2 h1 h2 h3 h4
    have key : m2.mul255 = m.mul255 := by
      have hd : m2.data.map (fun p => p.map (fun v => saturate_cast (v * 255)))
          = m.data.map (fun p => p.map (fun v => saturate_cast (v * 255))) := by
        have hfun : (fun p : List Nat => p.map (fun v => saturate_cast (v * 255)))
            = (fun q : List Bool => q.map (fun b => if b then 0 else 255))
              ∘ (List.map (fun v => decide (v = 0))) := by
          funext p
          simp only [Function.comp, List.map_map]
          apply List.map_congr_left
          intro v _
          simp [saturate_mul255]
        rw [hfun, ← List.map_map, ← List.map_map, h4]
      cases m; cases m2
      simp only [Mat.mul255] at hd ⊢
      simp_all
    simp only [normalizedMasks, fullRangeMasks, key]


theorem weights_binary_witness :
    (MatView greyMask).SingleChannel ∧
      (normalizedMasks (MatView greyMask)).1.elem 1 0 1 = 1 ∧
      (normalizedMasks (MatView greyMask)).2.elem 1 0 1 = 0 := by
  have h := weights_binary (MatView greyMask) sample_singleChannel 1 0 1
    (by decide) (by decide) (by decide)
  refine ⟨sample_singleChannel, ?_, ?_⟩
  · rw [h.1]; rfl
  · rw [h.2.1, h.1]; rfl

/-- Claim C6, as stated, fails: a mask that already holds the full-range
intensity 100 does not pass through; the subject mask holds 255 there. -/
theorem mask_scaling_counterexample :
    (MatView greyMask).elem 1 0 0 = 100 ∧
      (fullRangeMasks (MatView greyMask)).1.elem 1 0 0 = 255 ∧
      (fullRangeMasks (MatView greyMask)).1.elem 1 0 0 ≠ (MatView greyMask).elem 1 0 0 := by
  decide

/-- Claim C6, amended: for every 8-bit single-channel mask the subject mask has
the same value in each of its three channels, and that value is the raw mask
value times 255 saturated to 255. It is the raw value times 255 when the raw
value is 0 or 1, and it is 255 for every raw value of at least 1, so a raw
value passes through unchanged only when it is 0 or 255. -/
theorem mask_scaling (m : Mat) (hm : m.SingleChannel) (r c ch : Nat)
    (hr : r < m.rows) (hc : c < m.cols) (hch : ch < 3) :
    (fullRangeMasks m).1.elem r c ch = (fullRangeMasks m).1.elem r c 0 ∧
    (fullRangeMasks m).1.elem r c ch = min (m.elem r c 0 * 255) 255 ∧
    (m.elem r c 0 ≤ 1 → (fullRangeMasks m).1.elem r c ch = m.elem r c 0 * 255) ∧
    (1 ≤ m.elem r c 0 → (fullRangeMasks m).1.elem r c ch = 255) ∧
    ((fullRangeMasks m).1.elem r c ch = m.elem r c 0 ↔
      m.elem r c 0 = 0 ∨ m.elem r c 0 = 255) := by
  rw [fullRange_elem m hm r c ch hr hc hch, fullRange_elem m hm r c 0 hr hc (by decide)]
  unfold saturate_cast
  refine ⟨rfl, rfl, ?_, ?_, ?_⟩
  · intro h; omega
  · intro h; omega
  · omega

theorem mask_scaling_witness :
    (MatView greyMask).SingleChannel ∧
      (fullRangeMasks (MatView greyMask)).1.elem 0 1 2 = 255 :=
  ⟨sample_singleChannel,
    ((mask_scaling (MatView greyMask) sample_singleChannel 0 1 2
      (by decide) (by decide) (by decide)).2.2.2.1 (by decide))⟩

/-! ## Blurring before or after the division by 255 -/

theorem getD_map_zero (g : Nat → Nat) (hg : g 0 = 0) (p : List Nat) (ch : Nat) :
    (p.map g).getD ch 0 = g (p.getD ch 0) := by
  induction p generalizing ch with
  | nil => simp [hg]
  | cons x xs ih =>
    cases ch with
    | zero => simp
    | succ n => simpa using ih n

theorem getD_mem_or_default {α : Type} (l : List α) (i : Nat) (d : α) :
    l.getD i d = d ∨ l.getD i d ∈ l := by
  induction l generalizing i with
  | nil => left; simp
  | cons x xs ih =>
    cases i with
    | zero => right; simp
    | succ n =>
      rcases ih n with h | h
      · left; simpa using h
      · right; simpa using Or.inr h

/-- An element of a buffer that holds only 0 and 255 is 255 times its rounded
quotient by 255, and that quotient is at most 1. -/
theorem elem_binary (X : Mat) (hX : ∀ p ∈ X.data, ∀ v ∈ p, v = 0 ∨ v = 255) (j ch : Nat) :
    (X.data.getD j []).getD ch 0 = 255 * div255 ((X.data.getD j []).getD ch 0) ∧
      div255 ((X.data.getD j []).getD ch 0) ≤ 1 := by
  have h : (X.data.getD j []).getD ch 0 = 0 ∨ (X.data.getD j []).getD ch 0 = 255 := by
    rcases getD_mem_or_default X.data j [] with hj | hj
    · left; rw [hj]; rfl
    · rcases getD_mem_or_default (X.data.getD j []) ch 0 with hc | hc
      · left; exact hc
      · exact hX _ hj _ hc
  rcases h with h | h <;> rw [h] <;> decide

/-- Rounding a weighted average of values 0 and 255 and dividing by 255 gives
the rounded weighted average of the values 0 and 1. -/
theorem round_div255 (N S : Nat) (hN : 0 < N) (hS : 2 * S < 3 * N) :
    div255 (saturate_cast ((2 * (255 * S) + N) / (2 * N)))
      = saturate_cast ((2 * S + N) / (2 * N)) := by
  have h2N : 0 < 2 * N := by omega
  rcases Nat.lt_or_ge (2 * S) N with h | h
  · have h1 : (2 * S + N) / (2 * N) = 0 := Nat.div_eq_of_lt (by omega)
    have h2 : (2 * (255 * S) + N) / (2 * N) < 128 := by
      rw [Nat.div_lt_iff_lt_mul h2N]; omega
    rw [h1]
    unfold div255 saturate_cast
    omega
  · have h1 : (2 * S + N) / (2 * N) = 1 :=
      Nat.div_eq_of_lt_le (by omega) (by omega)
    have h2 : 128 ≤ (2 * (255 * S) + N) / (2 * N) := by
      rw [Nat.le_div_iff_mul_le h2N]; omega
    rw [h1]
    unfold div255 saturate_cast
    omega

theorem sum_taps_scaled (L : List (Nat × Nat)) (e : Nat → Nat)
    (he : ∀ j, e j = 255 * div255 (e j)) :
    (L.map (fun t => t.1 * e t.2)).sum = 255 * (L.map (fun t => t.1 * div255 (e t.2))).sum := by
  induction L with
  | nil => rfl
  | cons t ts ih =>
    simp only [List.map_cons, List.sum_cons, ih, Nat.mul_add]
    rw [he t.2]
    have hd : div255 (255 * div255 (e t.2)) = div255 (e t.2) := by rw [← he t.2]
    rw [hd]
    ring

theorem sum_taps_le (L : List (Nat × Nat)) (y : Nat → Nat) (hy : ∀ j, y j ≤ 1) :
    (L.map (fun t => t.1 * y t.2)).sum ≤ (L.map Prod.fst).sum := by
  induction L with
  | nil => simp
  | cons t ts ih =>
    simp only [List.map_cons, List.sum_cons]
    have := Nat.mul_le_mul_left t.1 (hy t.2)
    omega

/-- On a buffer that holds only 0 and 255, a rounding filter applied after the
division by 255 gives the division by 255 of the filtered buffer. -/
theorem roundingFilter_div255 (norm : Nat) (taps : Nat → Nat → Nat → List (Nat × Nat))
    (h : TapsWithinNorm norm taps) (X : Mat)
    (hX : ∀ p ∈ X.data, ∀ v ∈ p, v = 0 ∨ v = 255) :
    roundingFilter norm taps X.div255
      = (roundingFilter norm taps X).map (fun p => p.map div255) := by
  unfold roundingFilter
  rw [List.map_map]
  show List.map _ (List.range (X.rows * X.cols)) = List.map _ (List.range (X.rows * X.cols))
  apply List.map_congr_left
  intro i _
  simp only [Function.comp]
  rw [List.map_map]
  show List.map _ (List.range X.channels) = List.map _ (List.range X.channels)
  apply List.map_congr_left
  intro ch _
  simp only [Function.comp]
  show saturate_cast ((2 * ((taps X.rows X.cols i).map
      (fun t => t.1 * ((X.data.map (fun p => p.map div255)).getD t.2 []).getD ch 0)).sum + norm)
        / (2 * norm)) = _
  have hfun : (fun t : Nat × Nat =>
      t.1 * ((X.data.map (fun p => p.map div255)).getD t.2 []).getD ch 0)
        = (fun t : Nat × Nat => t.1 * div255 ((X.data.getD t.2 []).getD ch 0)) := by
    funext t
    rw [getD_map_pixel _ rfl, getD_map_zero _ rfl]
  rw [hfun, sum_taps_scaled (taps X.rows X.cols i) (fun j => (X.data.getD j []).getD ch 0)
    (fun j => (elem_binary X hX j ch).1)]
  have hS := sum_taps_le (taps X.rows X.cols i)
    (fun j => div255 ((X.data.getD j []).getD ch 0)) (fun j => (elem_binary X hX j ch).2)
  have hW := h.2 X.rows X.cols i
  beta_reduce at hS ⊢
  exact (round_div255 norm _ h.1 (by omega)).symm

/-- Both full-range masks hold only the values 0 and 255. -/
theorem fullRange_binary (m : Mat) :
    (∀ p ∈ (fullRangeMasks m).1.data, ∀ v ∈ p, v = 0 ∨ v = 255) ∧
    (∀ p ∈ (fullRangeMasks m).2.data, ∀ v ∈ p, v = 0 ∨ v = 255) := by
  constructor
  · intro p hp v hv
    simp only [fullRangeMasks, cv_merge3, Mat.mul255, List.map_map, List.mem_map,
      Function.comp] at hp
    obtain ⟨q, _, rfl⟩ := hp
    simp only [List.mem_append, List.mem_map] at hv
    have hx : ∀ x, saturate_cast (x * 255) = 0 ∨ saturate_cast (x * 255) = 255 := fun x => by
      rw [saturate_mul255]; split <;> simp
    rcases hv with (⟨x, _, rfl⟩ | ⟨x, _, rfl⟩) | ⟨x, _, rfl⟩ <;> exact hx x
  · intro p hp v hv
    simp only [fullRangeMasks, cv_bitwise_not, cv_merge3, Mat.mul255, List.map_map,
      List.mem_map, Function.comp] at hp
    obtain ⟨q, _, rfl⟩ := hp
    simp only [List.map_append, List.map_map, List.mem_append, List.mem_map,
      Function.comp] at hv
    have hx : ∀ x, (saturate_cast (x * 255) ^^^ 255) % 256 = 0
        ∨ (saturate_cast (x * 255) ^^^ 255) % 256 = 255 := fun x => by
      rw [saturate_mul255]; split
      · right; rfl
      · left; rfl
    rcases hv with (⟨x, _, rfl⟩ | ⟨x, _, rfl⟩) | ⟨x, _, rfl⟩ <;> exact hx x

/-- Claim C9 (feathering order): for every 8-bit mask and every blur that is a
weighted average rounded to nearest, each of the two final weight buffers
equals the blur applied to the corresponding full-range (0 or 255) mask and
then divided by 255. The code divides at lines 112 and 116 and blurs at lines
120 and 121; the buffers are the same as those of blurring at full range and
rescaling afterwards. -/
theorem feathering_order (norm : Nat) (taps : Nat → Nat → Nat → List (Nat × Nat))
    (h : TapsWithinNorm norm taps) (m : Mat) :
    (blendWeights (roundingFilter norm taps) m).1
      = (cv_GaussianBlur (roundingFilter norm taps) (fullRangeMasks m).1).div255 ∧
    (blendWeights (roundingFilter norm taps) m).2
      = (cv_GaussianBlur (roundingFilter norm taps) (fullRangeMasks m).2).div255 := by
  constructor
  · show cv_GaussianBlur (roundingFilter norm taps) (fullRangeMasks m).1.div255 = _
    unfold cv_GaussianBlur
    rw [roundingFilter_div255 norm taps h _ (fullRange_binary m).1]
    rfl
  · show cv_GaussianBlur (roundingFilter norm taps) (fullRangeMasks m).2.div255 = _
    unfold cv_GaussianBlur
    rw [roundingFilter_div255 norm taps h _ (fullRange_binary m).2]
    rfl

theorem binomialTaps_withinNorm : TapsWithinNorm 4 binomialTaps :=
  ⟨by decide, fun _ _ _ => by simp [binomialTaps]⟩

theorem feathering_order_witness :
    TapsWithinNorm 4 binomialTaps ∧
    (blendWeights (roundingFilter 4 binomialTaps) rowMask).1.data
      = [[1, 1, 1], [1, 1, 1], [0, 0, 0]] ∧
    (blendWeights (roundingFilter 4 binomialTaps) rowMask).1
      = (cv_GaussianBlur (roundingFilter 4 binomialTaps) (fullRangeMasks rowMask).1).div255 ∧
    (blendWeights (roundingFilter 4 binomialTaps) rowMask).2
      = (cv_GaussianBlur (roundingFilter 4 binomialTaps) (fullRangeMasks rowMask).2).div255 :=
  ⟨binomialTaps_withinNorm, by decide,
    feathering_order 4 binomialTaps binomialTaps_withinNorm rowMask⟩

/-! ## Uniform masks -/

theorem zipWith_replicate_eq_map {α β γ : Type} (f : α → β → γ) (xs : List α) (y : β) :
    List.zipWith f xs (List.replicate xs.length y) = xs.map (fun x => f x y) := by
  induction xs with
  | nil => rfl
  | cons x xs ih => simp [List.replicate_succ, ih]

theorem pixel_mul_ones (p : List Nat) (hlen : p.length = 3) (hp : ∀ v ∈ p, v < 256) :
    List.zipWith (fun a b => saturate_cast (a * b)) p [1, 1, 1] = p := by
  match p, hlen with
  | [a, b, c], _ =>
    simp only [List.mem_cons, List.mem_singleton, List.not_mem_nil, or_false] at hp
    show [saturate_cast (a * 1), saturate_cast (b * 1), saturate_cast (c * 1)] = [a, b, c]
    rw [saturate_mul_one _ (hp a (Or.inl rfl)), saturate_mul_one _ (hp b (Or.inr (Or.inl rfl))),
      saturate_mul_one _ (hp c (Or.inr (Or.inr rfl)))]

theorem pixel_mul_zeros (p : List Nat) (hlen : p.length = 3) :
    List.zipWith (fun a b => saturate_cast (a * b)) p [0, 0, 0] = [0, 0, 0] := by
  match p, hlen with
  | [a, b, c], _ => simp [saturate_cast]

/-- The final `bg_mask` of a mask that holds `v` everywhere, without blur. -/
theorem blendWeights_uniform (m : Mat) (n v : Nat) (hd : m.data = List.replicate n [v]) :
    (blendWeights noBlur m).1.data
      = List.replicate n [div255 (saturate_cast (v * 255)), div255 (saturate_cast (v * 255)),
          div255 (saturate_cast (v * 255))] := by
  simp [blendWeights, normalizedMasks, fullRangeMasks, cv_GaussianBlur, noBlur, Mat.div255,
    Mat.mul255, cv_merge3, Mat.convertTo_CV_8U, hd]

/-- Claim C3: for every three-channel 8-bit input frame and every loaded
background, when the mask is 1 everywhere and the blur is the identity (kernel
size 1), `Process` returns and the frame it emits is the input frame, pixel for
pixel. -/
theorem Process_mask_ones (ext : Externals) (cc : CalculatorContext)
    (h : ValidInput ext cc) (hframe : cc.Inputs_IMAGE.WellFormed)
    (hmask : cc.Inputs_MASK.PixelData
      = List.replicate (cc.Inputs_IMAGE.Height * cc.Inputs_IMAGE.Width) [1])
    (hblur : ext.GaussianBlur = noBlur) :
    Process ext cc
      = .ok (Status.OkStatus, cc.Outputs_IMAGE ++ [⟨cc.Inputs_IMAGE, cc.InputTimestamp⟩]) := by
  rw [Process_eq ext cc h, hblur,
    blendWeights_uniform (MatView cc.Inputs_MASK) _ 1 hmask, ← hframe.1,
    zipWith_replicate_eq_map]
  have hpx : cc.Inputs_IMAGE.PixelData.map
      (fun x => List.zipWith (fun a b => saturate_cast (a * b)) x
        [div255 (saturate_cast (1 * 255)), div255 (saturate_cast (1 * 255)),
          div255 (saturate_cast (1 * 255))]) = cc.Inputs_IMAGE.PixelData := by
    conv_rhs => rw [← List.map_id cc.Inputs_IMAGE.PixelData]
    apply List.map_congr_left
    intro p hp
    have h3 := (hframe.2 p hp).1
    rw [h.frame_channels] at h3
    exact pixel_mul_ones p h3 (hframe.2 p hp).2
  rw [hpx]

theorem Process_mask_ones_witness :
    Process (sampleExternals resourceFound blueBackground noBlur)
        ⟨colourFrame, onesMask, 7, []⟩
      = .ok (Status.OkStatus, [⟨colourFrame, 7⟩]) :=
  Process_mask_ones (sampleExternals resourceFound blueBackground noBlur)
    ⟨colourFrame, onesMask, 7, []⟩
    ⟨rfl, rfl, by decide, by decide, rfl, rfl, rfl, rfl⟩
    ⟨rfl, by decide⟩ rfl rfl


/-! ## The emitted frame and the background -/

/-- On valid inputs the result of `Process` does not depend on the background
image nor on its resampling: the frame copied to the output is `fg_image`. -/
theorem Process_ignores_background (ext : Externals) (cc : CalculatorContext)
    (h : ValidInput ext cc) (background : Mat) (hne : background.empty = false)
    (hch : background.channels = 3) (resample : Mat → Nat → Nat → List (List Nat)) :
    Process { ext with imread := fun _ => background, resize := resample } cc
      = Process ext cc := by
  rw [Process_eq ext cc h, Process_eq _ cc
    ⟨h.frame_channels, h.mask_channels, h.width_pos, h.height_pos, h.mask_width,
      h.mask_height, hne, hch⟩]

/-- On valid inputs with a mask that is 0 everywhere and no blur, every pixel of
the frame that `Process` emits is black, whatever the background. -/
theorem Process_mask_zeros_black (ext : Externals) (cc : CalculatorContext)
    (h : ValidInput ext cc) (hframe : cc.Inputs_IMAGE.WellFormed)
    (hmask : cc.Inputs_MASK.PixelData
      = List.replicate (cc.Inputs_IMAGE.Height * cc.Inputs_IMAGE.Width) [0])
    (hblur : ext.GaussianBlur = noBlur) :
    Process ext cc = .ok (Status.OkStatus,
      cc.Outputs_IMAGE ++
        [⟨{ cc.Inputs_IMAGE with
              PixelData := cc.Inputs_IMAGE.PixelData.map (fun _ => [0, 0, 0]) },
          cc.InputTimestamp⟩]) := by
  rw [Process_eq ext cc h, hblur,
    blendWeights_uniform (MatView cc.Inputs_MASK) _ 0 hmask, ← hframe.1,
    zipWith_replicate_eq_map]
  have hpx : cc.Inputs_IMAGE.PixelData.map
      (fun x => List.zipWith (fun a b => saturate_cast (a * b)) x
        [div255 (saturate_cast (0 * 255)), div255 (saturate_cast (0 * 255)),
          div255 (saturate_cast (0 * 255))])
        = cc.Inputs_IMAGE.PixelData.map (fun _ => [0, 0, 0]) := by
    apply List.map_congr_left
    intro p hp
    have h3 := (hframe.2 p hp).1
    rw [h.frame_channels] at h3
    exact pixel_mul_zeros p h3
  rw [hpx]

/-- Claim C1, evaluated on the boundary scenario (solid red 2 x 2 frame, mask
with rows (1, 1) and (0, 0), solid background (0, 0, 255), no blur): the local
`output_image` holds the blend, a red top row over a (0, 0, 255) bottom row,
but the frame that `Process` emits is `fg_image`, whose bottom row is black. -/
theorem Process_boundary_scenario :
    (do let background ← cv_resize nearestNeighbour blueBackground 2 2
        let images ← composite background (MatView redFrame)
          (blendWeights noBlur (MatView topMask)).1 (blendWeights noBlur (MatView topMask)).2
        pure images.output_image.data)
      = Except.ok [[255, 0, 0], [255, 0, 0], [0, 0, 255], [0, 0, 255]] ∧
    Process (sampleExternals resourceFound blueBackground noBlur) ⟨redFrame, topMask, 42, []⟩
      = .ok (Status.OkStatus,
          [⟨⟨ImageFormat.SRGB, 2, 2, [[255, 0, 0], [255, 0, 0], [0, 0, 0], [0, 0, 0]]⟩, 42⟩]) :=
  ⟨rfl, rfl⟩

/-- Claim C2, evaluated on a 2 x 2 frame with a mask that is 0 everywhere and
no blur: the background resized to the frame holds (0, 0, 255) at every pixel,
the local `output_image` equals it, but the frame that `Process` emits is
black. -/
theorem Process_mask_zeros :
    cv_resize nearestNeighbour blueBackground 2 2
      = .ok ⟨2, 2, 3, [[0, 0, 255], [0, 0, 255], [0, 0, 255], [0, 0, 255]]⟩ ∧
    (do let background ← cv_resize nearestNeighbour blueBackground 2 2
        let images ← composite background (MatView colourFrame)
          (blendWeights noBlur (MatView zerosMask)).1 (blendWeights noBlur (MatView zerosMask)).2
        pure images.output_image.data)
      = Except.ok [[0, 0, 255], [0, 0, 255], [0, 0, 255], [0, 0, 255]] ∧
    Process (sampleExternals resourceFound blueBackground noBlur) ⟨colourFrame, zerosMask, 42, []⟩
      = .ok (Status.OkStatus,
          [⟨⟨ImageFormat.SRGB, 2, 2, [[0, 0, 0], [0, 0, 0], [0, 0, 0], [0, 0, 0]]⟩, 42⟩]) :=
  ⟨rfl, rfl, rfl⟩

end mediapipe
